import Mathlib

/-!
Verification of the meeting-notes recorder (Rust sources `src/src-tauri/src/lib.rs`
and `src/src-tauri/src/database.rs`) against its natural-language specification.

Modelling conventions:
* `f32`/`f64` samples and gains are embedded as exact rationals (`ℚ`); the
  arithmetic the audio helpers perform (add, mul, div by powers of two and by
  small integers) is modelled exactly.
* Rust `Vec<T>` becomes `List T`; slices become lists.
* Fallible paths return `Except String _` mirroring `Result<_, String>`;
  a Rust panic (e.g. integer division by zero) is modelled as `Option.none`.
* Stateful Tauri commands become explicit state-passing functions over a
  record that mirrors the fields of `AudioState` they read or write.
-/

namespace MeetingNotes

/-- Truncation toward zero of a rational, the rounding Rust's float-to-int
`as` cast performs before saturating. -/
def truncQ (q : ℚ) : ℤ := if 0 ≤ q then ⌊q⌋ else ⌈q⌉

/-! ### `resample_audio` (lib.rs 450-471) -/

/-- Embeds `resample_audio(input, input_rate, output_rate)`.
The Rust body computes `ratio = input_rate / output_rate` in `f64`,
`output_len = (len / ratio) as usize`, and for each `i < output_len` with
`src_index = (i * ratio) as usize < len` linearly interpolates between
`input[src_index]` and `input[min(src_index+1, len-1)]` with the fractional
part of `i * ratio`; an index failing the guard pushes nothing (`filterMap`).
The `f64` arithmetic is modelled exactly over `ℚ` (`as usize` on a
non-negative value is `Nat.floor`); the model is faithful for positive rates,
under which every theorem below is stated. -/
def resample_audio (input : List ℚ) (input_rate output_rate : ℕ) : List ℚ :=
  if input_rate = output_rate then input
  else
    let ratio : ℚ := (input_rate : ℚ) / (output_rate : ℚ)
    let output_len : ℕ := ⌊(input.length : ℚ) / ratio⌋₊
    (List.range output_len).filterMap (fun i : ℕ =>
      let src_index : ℕ := ⌊(i : ℚ) * ratio⌋₊
      if h : src_index < input.length then
        let next_index : ℕ := min (src_index + 1) (input.length - 1)
        let fraction : ℚ := (i : ℚ) * ratio - (src_index : ℚ)
        some (input.get ⟨src_index, h⟩ * (1 - fraction) + input.getD next_index 0 * fraction)
      else none)

/-! ### `convert_i16_to_f32` (lib.rs 473-475) -/

/-- Embeds `convert_i16_to_f32`: each `i16` sample is divided by `32768.0`.
An `i16` value and its quotient by the power of two 32768 are exactly
representable in `f32`, so the `ℚ` model is exact. -/
def convert_i16_to_f32 (input : List ℤ) : List ℚ :=
  input.map (fun sample : ℤ => (sample : ℚ) / 32768)

/-! ### `convert_to_mono` (lib.rs 477-488) -/

/-- Rust's `slice::chunks(n)`: contiguous chunks of size `n`, the last one
possibly shorter.  Total for every `n`; the Rust call sites reach it only
with `n ≥ 2`. -/
def chunks (n : ℕ) : List ℚ → List (List ℚ)
  | [] => []
  | x :: xs => (x :: xs.take (n - 1)) :: chunks n (xs.drop (n - 1))
termination_by l => l.length
decreasing_by
  simp only [List.length_cons, List.length_drop]
  omega

/-- Embeds `convert_to_mono(input, channels)`.  The Rust function returns the
input unchanged for `channels == 1`; for any other channel count it first
evaluates `input.len() / channels as usize`, which for `channels == 0` is an
integer division by zero and panics (modelled as `none`); otherwise it maps
each chunk to `chunk.sum / channels`. -/
def convert_to_mono (input : List ℚ) (channels : ℕ) : Option (List ℚ) :=
  if channels = 1 then some input
  else if channels = 0 then none
  else some ((chunks channels input).map (fun chunk => chunk.sum / (channels : ℚ)))

/-! ### `mix_audio_streams` (lib.rs 490-512) -/

/-- The soft-clipping branch inside `mix_audio_streams`: written inline in the
Rust loop body (lines 500-506). -/
def softClip (s : ℚ) : ℚ :=
  if s > 1 then 1 - 1 / (1 + (s - 1))
  else if s < -1 then -1 + 1 / (1 + (-s - 1))
  else s

/-- Embeds `mix_audio_streams(mic_data, system_data, mic_gain, system_gain)`:
for each `i` below the max of the lengths, missing samples default to `0`,
the gains are applied, the two are summed and soft-clipped. -/
def mix_audio_streams (mic_data system_data : List ℚ) (mic_gain system_gain : ℚ) : List ℚ :=
  (List.range (max mic_data.length system_data.length)).map (fun i =>
    let mic_sample := mic_data.getD i 0 * mic_gain
    let system_sample := system_data.getD i 0 * system_gain
    softClip (mic_sample + system_sample))

/-! ### `stop_recording` (lib.rs 1297-1368) -/

/-- Rust's saturating float-to-int cast `as i16`: round toward zero, then
clamp into `[i16::MIN, i16::MAX]`. -/
def i16SatCast (q : ℚ) : ℤ := max (-32768) (min 32767 (truncQ q))

/-- The per-sample conversion in the WAV loop (lib.rs 1341):
`(sample * i16::MAX as f32) as i16` with `i16::MAX = 32767`. -/
def quantizeSample (sample : ℚ) : ℤ := i16SatCast (sample * 32767)

/-- `hound::WavSpec` as constructed at lib.rs 1330-1335. -/
structure WavSpec where
  channels : ℕ
  sample_rate : ℕ
  bits_per_sample : ℕ
  deriving Repr, DecidableEq

/-- A written WAV file: its header spec and the 16-bit samples pushed by the
write loop. -/
structure WavFile where
  spec : WavSpec
  samples : List ℤ
  deriving Repr, DecidableEq

/-- `RecordingResult` (lib.rs 1297-1304). -/
structure RecordingResult where
  success : Bool
  message : String
  audio_file_path : Option String
  duration_seconds : ℤ
  sample_count : ℕ
  deriving Repr, DecidableEq

/-- The fields of `AudioState` that `stop_recording` reads or writes
(lib.rs 30-48): the guarded booleans/options are unwrapped, `DateTime<Utc>`
start times are modelled as integer UTC seconds, the master buffer as a list
of exact samples. -/
structure AudioStateM where
  is_recording : Bool
  start_time : Option ℤ
  output_path : Option String
  recording_data : List ℚ
  deriving Repr, DecidableEq

/-- Embeds the `stop_recording` command.  `now` is `chrono::Utc::now()` in
UTC seconds (`signed_duration_since(start).num_seconds()` is then
`now - start`).  Returns the post-state, the command's
`Result<RecordingResult, String>`, and the WAV file written (`none` when no
file was written). -/
def stop_recording (now : ℤ) (st : AudioStateM) :
    AudioStateM × Except String RecordingResult × Option WavFile :=
  if !st.is_recording then
    (st, Except.error "Not currently recording", none)
  else
    let duration_seconds : ℤ :=
      match st.start_time with
      | some start => now - start
      | none => 0
    let st1 : AudioStateM :=
      { st with is_recording := false, start_time := none }
    match st.output_path with
    | some path =>
        let wav : WavFile :=
          { spec := { channels := 1, sample_rate := 16000, bits_per_sample := 16 }
            samples := st.recording_data.map quantizeSample }
        (st1,
         Except.ok
           { success := true
             message := "Recording stopped and saved successfully (Duration: " ++
               toString duration_seconds ++ "s)"
             audio_file_path := some path
             duration_seconds := duration_seconds
             sample_count := st.recording_data.length },
         some wav)
    | none =>
        (st1,
         Except.ok
           { success := false
             message := "Recording stopped but no file path available"
             audio_file_path := none
             duration_seconds := duration_seconds
             sample_count := st.recording_data.length },
         none)

/-! ### `transcribe_with_whisper` / `transcribe_with_whisper_segments`
(lib.rs 514-579 and 581-689)

The whisper-rs recognizer is external; a call to it is abstracted as a
function from the audio to either an error or the list of segments
`(t0_centiseconds, t1_centiseconds, text)` the recognizer state would
yield.  Everything around that call is embedded from the source. -/

/-- One recognizer segment: start/end in centiseconds and its text. -/
structure RecognizedSegment where
  t0 : ℤ
  t1 : ℤ
  text : String

/-- `TranscriptionSegment` (times in seconds, lib.rs 664-668). -/
structure TranscriptionSegment where
  start : ℚ
  stop : ℚ
  text : String
  deriving Repr, DecidableEq

/-- `TranscriptionResult` (lib.rs 24-27). -/
structure TranscriptionResult where
  segments : List TranscriptionSegment
  full_text : String
  deriving Repr, DecidableEq

/-- The text-joining loop of `transcribe_with_whisper` (lib.rs 555-569):
concatenate segment texts separated by single spaces. -/
def joinWithSpaces : List String → String
  | [] => ""
  | t :: ts => ts.foldl (fun acc s => acc ++ " " ++ s) t

/-- Embeds `transcribe_with_whisper(ctx, audio_data, language)`.  The guard
`audio_data.len() < 1600` short-circuits before any recognizer state is
created; afterwards the recognizer output is joined, trimmed, and empty
results become "(No speech detected)". -/
def transcribe_with_whisper
    (recognize : List ℚ → Option String → Except String (List RecognizedSegment))
    (audio_data : List ℚ) (language : Option String) : Except String String :=
  if audio_data.length < 1600 then
    Except.ok "(Audio too short for transcription)"
  else
    match recognize audio_data language with
    | Except.error e => Except.error ("Whisper transcription failed: " ++ e)
    | Except.ok segs =>
        if segs.length = 0 then Except.ok "(No speech detected)"
        else
          let cleaned := (joinWithSpaces (segs.map (fun s => s.text))).trim
          if cleaned = "" then Except.ok "(No speech detected)"
          else Except.ok cleaned

/-- Embeds `transcribe_with_whisper_segments`: same short-audio guard, then
segments with centisecond-to-second conversion and the joined full text. -/
def transcribe_with_whisper_segments
    (recognize : List ℚ → Option String → Except String (List RecognizedSegment))
    (audio_data : List ℚ) (language : Option String) : Except String TranscriptionResult :=
  if audio_data.length < 1600 then
    Except.ok { segments := [], full_text := "(Audio too short for transcription)" }
  else
    match recognize audio_data language with
    | Except.error e => Except.error ("Whisper transcription failed: " ++ e)
    | Except.ok segs =>
        if segs.length = 0 then
          Except.ok { segments := [], full_text := "(No speech detected)" }
        else
          let kept := (segs.map (fun s => { s with text := s.text.trim })).filter
            (fun s => s.text ≠ "")
          let out : List TranscriptionSegment := kept.map (fun s =>
            { start := (s.t0 : ℚ) / 100, stop := (s.t1 : ℚ) / 100, text := s.text })
          let cleaned := (joinWithSpaces (kept.map (fun s => s.text))).trim
          Except.ok
            { segments := out
              full_text := if cleaned = "" then "(No speech detected)" else cleaned }

/-! ### `database.rs`: the SQLite store

SQLite semantics needed by the claims: foreign-key enforcement (and hence
`ON DELETE CASCADE` in the `meeting_segments` schema, database.rs 70) is
governed by the per-connection pragma `foreign_keys`, which SQLite leaves
**off** by default; rusqlite's `Connection::open` does not change that, and
no `PRAGMA foreign_keys` statement appears anywhere in this repository.  The
model therefore carries the pragma as a field, initialised `false`. -/

/-- `Meeting` (database.rs 7-19); timestamps kept as their stored RFC3339
strings. -/
structure Meeting where
  id : String
  title : String
  created_at : String
  updated_at : String
  duration_seconds : Option ℤ
  audio_file_path : Option String
  transcript : Option String
  meeting_minutes : Option String
  language : Option String
  ai_provider : Option String
  deriving Repr, DecidableEq

/-- `MeetingSegment` (database.rs 21-29); `REAL` times as exact rationals. -/
structure MeetingSegment where
  id : String
  meeting_id : String
  start_time : ℚ
  end_time : ℚ
  text : String
  confidence : Option ℚ
  deriving Repr, DecidableEq

/-- The two tables created by `init_tables` plus the connection's
`foreign_keys` pragma state. -/
structure Database where
  meetings : List Meeting
  segments : List MeetingSegment
  foreign_keys_on : Bool
  deriving Repr, DecidableEq

/-- `Database::new`: open a connection (pragma `foreign_keys` at SQLite's
default `OFF`) and create empty tables. -/
def Database.new : Database :=
  { meetings := [], segments := [], foreign_keys_on := false }

/-- `Database::create_meeting` (database.rs 89-119): the INSERT sets only
`id, title, created_at, updated_at, language`; the remaining columns are
NULL.  The generated UUID and `Local::now()` are passed in explicitly. -/
def Database.create_meeting (db : Database) (id now title : String)
    (language : Option String) : Database × Meeting :=
  let meeting : Meeting :=
    { id := id, title := title, created_at := now, updated_at := now
      duration_seconds := none, audio_file_path := none, transcript := none
      meeting_minutes := none, language := language, ai_provider := none }
  ({ db with meetings := db.meetings ++ [meeting] }, meeting)

/-- `Database::add_meeting_segment` (database.rs 230-245). -/
def Database.add_meeting_segment (db : Database) (segment : MeetingSegment) : Database :=
  { db with segments := db.segments ++ [segment] }

/-- `Database::delete_meeting` (database.rs 225-228): a single
`DELETE FROM meetings WHERE id = ?1`.  The declared `ON DELETE CASCADE` on
`meeting_segments` fires only when the connection's `foreign_keys` pragma is
on. -/
def Database.delete_meeting (db : Database) (id : String) : Database :=
  { db with
    meetings := db.meetings.filter (fun m => m.id ≠ id)
    segments :=
      if db.foreign_keys_on then db.segments.filter (fun s => s.meeting_id ≠ id)
      else db.segments }

/-- Insertion step of an `ORDER BY start_time` sort. -/
def insertByStart (s : MeetingSegment) : List MeetingSegment → List MeetingSegment
  | [] => [s]
  | t :: ts => if s.start_time ≤ t.start_time then s :: t :: ts else t :: insertByStart s ts

/-- `Database::get_meeting_segments` (database.rs 247-270):
`SELECT ... WHERE meeting_id = ?1 ORDER BY start_time`. -/
def Database.get_meeting_segments (db : Database) (meeting_id : String) :
    List MeetingSegment :=
  ((db.segments.filter (fun s => s.meeting_id = meeting_id)).foldr insertByStart [])

/-! ### `update_audio_file_paths` (lib.rs 2718-2861)

Filenames are modelled as `List Char`; the chrono values derived from a
meeting's `created_at` are carried as precomputed fields: the local-timezone
`%Y%m%d` date string and the UTC hour/minute/second.  The directory walk is
a list of the `.wav` filenames in directory order. -/

/-- Substring containment on character lists (Rust `str::contains` with a
string pattern). -/
def containsSeq (needle : List Char) : List Char → Bool
  | [] => needle.isEmpty
  | c :: rest => needle.isPrefixOf (c :: rest) || containsSeq needle rest

/-- Rust `str::split('_')`: the pieces between underscores, keeping empties. -/
def splitUnderscore : List Char → List (List Char)
  | [] => [[]]
  | c :: rest =>
    match splitUnderscore rest with
    | [] => [[]]
    | p :: ps => if c = '_' then [] :: p :: ps else (c :: p) :: ps

/-- Rust `str::replace(".wav", "")`: remove every (left-to-right,
non-overlapping) occurrence of `.wav`. -/
def stripDotWav : List Char → List Char
  | '.' :: 'w' :: 'a' :: 'v' :: rest => stripDotWav rest
  | c :: rest => c :: stripDotWav rest
  | [] => []

/-- Rust `str::parse::<u32>()` on a two-character slice: an optional leading
`+` followed by decimal digits, at least one digit. -/
def parseU32Pair (c1 c2 : Char) : Option ℕ :=
  if c1 = '+' then
    if c2.isDigit then some (c2.toNat - '0'.toNat) else none
  else if c1.isDigit && c2.isDigit then
    some (10 * (c1.toNat - '0'.toNat) + (c2.toNat - '0'.toNat))
  else none

/-- The time extraction at lib.rs 2803-2817: split the filename on `_`,
require at least three parts, strip `.wav` from the third, require exactly
six characters, parse `HH`, `MM`, `SS` and convert to seconds
(`file_hour * 3600 + file_minute * 60 + file_second`). -/
def parseFileTime (filename : List Char) : Option ℕ :=
  match (splitUnderscore filename).drop 2 with
  | [] => none
  | part :: _ =>
    match stripDotWav part with
    | [a, b, c, d, e, f] => do
        let hour ← parseU32Pair a b
        let minute ← parseU32Pair c d
        let second ← parseU32Pair e f
        pure (hour * 3600 + minute * 60 + second)
    | _ => none

/-- The candidate filter at lib.rs 2799:
`filename.starts_with("recording_") && filename.contains(&meeting_date)`. -/
def isCandidateFile (meeting_date filename : List Char) : Bool :=
  "recording_".toList.isPrefixOf filename && containsSeq meeting_date filename

/-- The view of a meeting that `update_audio_file_paths` uses: its id and
stored audio path, plus the chrono-derived local date string and UTC
time-of-day components of `created_at`. -/
structure RMeeting where
  id : String
  audio_file_path : Option (List Char)
  local_date : List Char
  utc_hour : ℕ
  utc_minute : ℕ
  utc_second : ℕ
  deriving Repr, DecidableEq

/-- `meeting_hour * 3600 + meeting_minute * 60 + meeting_second`
(lib.rs 2816). -/
def RMeeting.totalSeconds (m : RMeeting) : ℕ :=
  m.utc_hour * 3600 + m.utc_minute * 60 + m.utc_second

/-- `i64::MAX`, the initial `best_time_diff` (lib.rs 2793). -/
def i64Max : ℤ := 9223372036854775807

/-- `(meeting_total_seconds - file_total_seconds).abs()` (lib.rs 2818), in
`i64` arithmetic. -/
def timeDiff (m : RMeeting) (t : ℕ) : ℤ := |(m.totalSeconds : ℤ) - (t : ℤ)|

/-- One iteration of the `for audio_file in &audio_files` loop
(lib.rs 2796-2831): a candidate filename with a parseable time replaces the
running best when its absolute time difference is strictly smaller. -/
def bestStep (m : RMeeting) (st : Option (List Char) × ℤ) (f : List Char) :
    Option (List Char) × ℤ :=
  if isCandidateFile m.local_date f then
    match parseFileTime f with
    | some t =>
        if timeDiff m t < st.2 then (some f, timeDiff m t) else st
    | none => st
  else st

/-- The full best-match scan for one meeting, starting from
`(None, i64::MAX)`. -/
def bestMatch (m : RMeeting) (files : List (List Char)) : Option (List Char) × ℤ :=
  files.foldl (bestStep m) (none, i64Max)

/-- The body of the `for mut meeting in meetings` loop (lib.rs 2771-2855)
for one meeting: skip it when it already has a non-empty audio path, else
scan for the best match and, when the best difference is strictly below
1800 s, store `recordings_dir/<filename>` (the matched file's full path) on
the meeting.  Returns the (possibly updated) meeting and whether an update
was written to the database. -/
def processRMeeting (dir : List Char) (files : List (List Char)) (m : RMeeting) :
    RMeeting × Bool :=
  if (match m.audio_file_path with
      | some p => !p.isEmpty
      | none => false) then
    (m, false)
  else
    match bestMatch m files with
    | (some matched, best_diff) =>
        if best_diff < 1800 then
          ({ m with audio_file_path := some (dir ++ matched) }, true)
        else (m, false)
    | (none, _) => (m, false)

/-- Embeds `update_audio_file_paths`: every meeting from `get_all_meetings`
is processed independently (each `db.update_meeting` rewrites exactly the
row of that meeting's primary-key id); returns the resulting meetings and
`updated_count`. -/
def update_audio_file_paths (dir : List Char) (files : List (List Char))
    (meetings : List RMeeting) : List RMeeting × ℕ :=
  (meetings.map (fun m => (processRMeeting dir files m).1),
   (meetings.filter (fun m => (processRMeeting dir files m).2)).length)

/-- Loop invariant of the best-match scan: after processing the filenames in
`seen`, a `none` state still carries `i64::MAX` and every parseable candidate
seen so far has difference at least the carried bound, while a `some f` state
carries exactly `f`'s difference, which is minimal among the candidates seen. -/
def BestInv (m : RMeeting) (seen : List (List Char)) (st : Option (List Char) × ℤ) : Prop :=
  (st.1 = none → st.2 = i64Max ∧
    ∀ g u, g ∈ seen → isCandidateFile m.local_date g = true → parseFileTime g = some u →
      i64Max ≤ timeDiff m u) ∧
  (∀ f, st.1 = some f → f ∈ seen ∧ isCandidateFile m.local_date f = true ∧
    ∃ t, parseFileTime f = some t ∧ st.2 = timeDiff m t ∧
      ∀ g u, g ∈ seen → isCandidateFile m.local_date g = true → parseFileTime g = some u →
        st.2 ≤ timeDiff m u)

end MeetingNotes

namespace MeetingNotes

/-! ## Theorems -/

/-- The soft-clip branch (lib.rs 500-506) always lands in `[-1, 1]`. -/
theorem softClip_mem_Icc (s : ℚ) : -1 ≤ softClip s ∧ softClip s ≤ 1 := by
  unfold softClip
  split_ifs with h1 h2
  · have hs : (0 : ℚ) < s := lt_trans one_pos h1
    have e : 1 + (s - 1) = s := by ring
    rw [e]
    have hpos : 0 < 1 / s := by positivity
    have hlt : 1 / s < 1 := by
      rw [div_lt_one hs]; exact h1
    constructor <;> linarith
  · have hs : (0 : ℚ) < -s := by linarith
    have e : 1 + (-s - 1) = -s := by ring
    rw [e]
    have hpos : 0 < 1 / (-s) := by positivity
    have hlt : 1 / (-s) < 1 := by
      rw [div_lt_one hs]; linarith
    constructor <;> linarith
  · push_neg at h1 h2
    exact ⟨h2, h1⟩

/-- C2: every sample output by `mix_audio_streams` lies in the closed
interval `[-1, 1]`, for all input lengths, magnitudes and gains. -/
theorem mix_audio_streams_bounded (mic_data system_data : List ℚ)
    (mic_gain system_gain : ℚ) (y : ℚ)
    (hy : y ∈ mix_audio_streams mic_data system_data mic_gain system_gain) :
    -1 ≤ y ∧ y ≤ 1 := by
  simp only [mix_audio_streams, List.mem_map, List.mem_range] at hy
  obtain ⟨i, -, rfl⟩ := hy
  exact softClip_mem_Icc _

/-- Concrete instance of C2: mixing the over-range sample `2` at unit gains
soft-clips to `1/2 ∈ [-1, 1]`. -/
theorem mix_audio_streams_bounded_witness :
    (1 / 2 : ℚ) ∈ mix_audio_streams [2] [] 1 0 ∧ (-1 ≤ (1 / 2 : ℚ) ∧ (1 / 2 : ℚ) ≤ 1) := by
  have hmix : mix_audio_streams [2] [] 1 0 = [1 / 2] := by
    simp [mix_audio_streams, softClip, List.range_succ]
    norm_num
  have hmem : (1 / 2 : ℚ) ∈ mix_audio_streams [2] [] 1 0 := by
    rw [hmix]; exact List.mem_singleton.mpr rfl
  exact ⟨hmem, mix_audio_streams_bounded [2] [] 1 0 (1 / 2) hmem⟩

/-- C10: `convert_i16_to_f32` divides each sample by 32768, preserves the
length, keeps in-range `i16` inputs inside `[-1, 32767/32768]`, and maps
`i16::MIN` exactly to `-1`. -/
theorem convert_i16_to_f32_spec (input : List ℤ)
    (hin : ∀ x ∈ input, -32768 ≤ x ∧ x ≤ 32767) :
    (convert_i16_to_f32 input).length = input.length ∧
    (∀ i : ℕ, (convert_i16_to_f32 input).getD i 0 = ((input.getD i 0 : ℤ) : ℚ) / 32768) ∧
    (∀ y ∈ convert_i16_to_f32 input, -1 ≤ y ∧ y ≤ 32767 / 32768) ∧
    convert_i16_to_f32 [-32768] = [-1] := by
  refine ⟨?_, ?_, ?_, ?_⟩
  · rw [convert_i16_to_f32, List.length_map]
  · intro i
    rw [convert_i16_to_f32, List.getD_eq_getElem?_getD, List.getD_eq_getElem?_getD,
      List.getElem?_map]
    cases h : input[i]? with
    | none => norm_num
    | some x => rfl
  · intro y hy
    rw [convert_i16_to_f32] at hy
    obtain ⟨x, hx, rfl⟩ := List.mem_map.mp hy
    obtain ⟨hlo, hhi⟩ := hin x hx
    constructor
    · rw [le_div_iff₀ (by norm_num : (0 : ℚ) < 32768)]
      have : (-32768 : ℚ) ≤ (x : ℚ) := by exact_mod_cast hlo
      linarith
    · rw [div_le_div_iff₀ (by norm_num : (0 : ℚ) < 32768) (by norm_num : (0 : ℚ) < 32768)]
      have : (x : ℚ) ≤ 32767 := by exact_mod_cast hhi
      linarith
  · rw [convert_i16_to_f32]
    norm_num

/-- Concrete instance of C10 at the input `[-32768, 0, 32767]`. -/
theorem convert_i16_to_f32_spec_witness :
    (convert_i16_to_f32 [-32768, 0, 32767]).getD 0 0 =
      ((List.getD [-32768, 0, 32767] 0 0 : ℤ) : ℚ) / 32768 :=
  (convert_i16_to_f32_spec [-32768, 0, 32767] (by decide)).2.1 0

/-- Length of Rust `chunks(n)` for `n ≥ 1`: the ceiling `(len + n - 1) / n`,
proved by induction on a length bound. -/
theorem chunks_length_aux (n : ℕ) (hn : 1 ≤ n) :
    ∀ (k : ℕ) (l : List ℚ), l.length ≤ k →
      (chunks n l).length = (l.length + n - 1) / n := by
  intro k
  induction k with
  | zero =>
    intro l hl
    have hnil : l = [] := List.eq_nil_of_length_eq_zero (Nat.le_zero.mp hl)
    subst hnil
    rw [chunks]
    simp only [List.length_nil, Nat.zero_add]
    rw [Nat.div_eq_of_lt (by omega)]
  | succ k ih =>
    intro l hl
    cases l with
    | nil =>
      rw [chunks]
      simp only [List.length_nil, Nat.zero_add]
      rw [Nat.div_eq_of_lt (by omega)]
    | cons x xs =>
      rw [chunks]
      simp only [List.length_cons]
      rw [ih (xs.drop (n - 1)) (by
        simp only [List.length_drop]
        simp only [List.length_cons] at hl
        omega)]
      simp only [List.length_drop]
      rcases le_or_lt (n - 1) xs.length with h | h
      · have e1 : xs.length - (n - 1) + n - 1 = xs.length := by omega
        have e2 : xs.length + 1 + n - 1 = xs.length + n := by omega
        rw [e1, e2, Nat.add_div_right _ (by omega)]
      · have e1 : xs.length - (n - 1) + n - 1 = n - 1 := by omega
        have e2 : xs.length + 1 + n - 1 = xs.length + n := by omega
        rw [e1, e2, Nat.div_eq_of_lt (by omega), Nat.add_div_right _ (by omega),
          Nat.div_eq_of_lt (by omega)]

/-- Counterexample to C3 as stated: on a 3-sample input with 2 channels the
output has 2 frames (`chunks` keeps the short trailing chunk), not
`⌊3 / 2⌋ = 1`. -/
theorem convert_to_mono_length_cex :
    (convert_to_mono [0, 0, 0] 2).map List.length = some 2 ∧
    List.length [(0 : ℚ), 0, 0] / 2 = 1 := by
  constructor
  · norm_num [convert_to_mono, chunks]
  · norm_num

/-- C3 (amended): for `channels ≥ 1` the output length is the number of
`chunks`, the ceiling `⌈|x| / channels⌉ = (|x| + channels - 1) / channels`;
for `channels = 1` the input is returned unchanged. -/
theorem convert_to_mono_length (x : List ℚ) (channels : ℕ) (h : 1 ≤ channels) :
    (convert_to_mono x channels).map List.length =
      some ((x.length + channels - 1) / channels) ∧
    convert_to_mono x 1 = some x := by
  constructor
  · by_cases h1 : channels = 1
    · subst h1
      simp [convert_to_mono]
    · have h0 : channels ≠ 0 := by omega
      rw [convert_to_mono, if_neg h1, if_neg h0]
      simp only [Option.map_some']
      rw [List.length_map, chunks_length_aux channels h x.length x le_rfl]
  · simp [convert_to_mono]

/-- Concrete instance of C3 (amended) on a 5-sample stereo input. -/
theorem convert_to_mono_length_witness :
    (convert_to_mono [1, 2, 3, 4, 5] 2).map List.length =
      some ((List.length [(1 : ℚ), 2, 3, 4, 5] + 2 - 1) / 2) ∧
    convert_to_mono [1, 2, 3, 4, 5] 1 = some [1, 2, 3, 4, 5] :=
  convert_to_mono_length [1, 2, 3, 4, 5] 2 (by decide)

/-- C5 (amended): `convert_to_mono` with `channels = 0` reaches
`input.len() / 0`, a panicking integer division by zero, for every input;
the code never produces an `UnsupportedLayout` (or any other) error value. -/
theorem convert_to_mono_zero_channels (input : List ℚ) :
    convert_to_mono input 0 = none := by
  rw [convert_to_mono]
  norm_num

/-- Counterexample to C5 as stated: even on the empty input the call panics
(no value at all), rather than returning an `UnsupportedLayout` error — the
Rust function's return type `Vec<f32>` has no error channel. -/
theorem convert_to_mono_zero_channels_cex :
    convert_to_mono ([] : List ℚ) 0 = none := by
  rw [convert_to_mono]
  norm_num

/-- C8: audio strictly shorter than 1600 samples short-circuits both
transcription entry points before any recognizer state is created: the
result is the fixed string (resp. the empty segment list with that string),
for every recognizer `recognize` — the recognizer is never consulted. -/
theorem transcribe_short_audio
    (recognize : List ℚ → Option String → Except String (List RecognizedSegment))
    (audio_data : List ℚ) (language : Option String)
    (h : audio_data.length < 1600) :
    transcribe_with_whisper recognize audio_data language =
      Except.ok "(Audio too short for transcription)" ∧
    transcribe_with_whisper_segments recognize audio_data language =
      Except.ok { segments := [], full_text := "(Audio too short for transcription)" } := by
  rw [transcribe_with_whisper, transcribe_with_whisper_segments, if_pos h, if_pos h]
  exact ⟨rfl, rfl⟩

/-- Concrete instance of C8: the empty input with a recognizer that would
error is still answered with the fixed string. -/
theorem transcribe_short_audio_witness :
    transcribe_with_whisper (fun _ _ => Except.error "engine") [] none =
      Except.ok "(Audio too short for transcription)" ∧
    transcribe_with_whisper_segments (fun _ _ => Except.error "engine") [] none =
      Except.ok { segments := [], full_text := "(Audio too short for transcription)" } :=
  transcribe_short_audio (fun _ _ => Except.error "engine") [] none (by decide)

/-- C9: stopping while recording with `output_path = None` is not an error:
the command returns `success = false`, no audio path, the sample count and
the duration, writes no WAV file, clears `is_recording` and `start_time`,
and a subsequent `stop_recording` fails with "Not currently recording". -/
theorem stop_recording_no_output_path (now now2 : ℤ) (st : AudioStateM)
    (h1 : st.is_recording = true) (h2 : st.output_path = none) :
    (stop_recording now st).2.1 =
      Except.ok { success := false
                  message := "Recording stopped but no file path available"
                  audio_file_path := none
                  duration_seconds :=
                    match st.start_time with
                    | some start => now - start
                    | none => 0
                  sample_count := st.recording_data.length } ∧
    (stop_recording now st).2.2 = none ∧
    (stop_recording now st).1.is_recording = false ∧
    (stop_recording now st).1.start_time = none ∧
    (stop_recording now2 (stop_recording now st).1).2.1 =
      Except.error "Not currently recording" := by
  have hfst : (stop_recording now st).1 =
      { st with is_recording := false, start_time := none } := by
    rw [stop_recording, h1]
    simp [h2]
  refine ⟨?_, ?_, ?_, ?_, ?_⟩
  · rw [stop_recording, h1]; simp [h2]
  · rw [stop_recording, h1]; simp [h2]
  · rw [hfst]
  · rw [hfst]
  · rw [hfst, stop_recording]
    simp

/-- Concrete instance of C9. -/
theorem stop_recording_no_output_path_witness :
    (stop_recording 12 { is_recording := true, start_time := some 10,
                         output_path := none, recording_data := [1 / 2] }).2.1 =
      Except.ok { success := false
                  message := "Recording stopped but no file path available"
                  audio_file_path := none
                  duration_seconds :=
                    match some (10 : ℤ) with
                    | some start => 12 - start
                    | none => 0
                  sample_count := List.length [(1 / 2 : ℚ)] } ∧
    (stop_recording 12 { is_recording := true, start_time := some 10,
                         output_path := none, recording_data := [1 / 2] }).2.2 = none ∧
    (stop_recording 12 { is_recording := true, start_time := some 10,
                         output_path := none, recording_data := [1 / 2] }).1.is_recording = false ∧
    (stop_recording 12 { is_recording := true, start_time := some 10,
                         output_path := none, recording_data := [1 / 2] }).1.start_time = none ∧
    (stop_recording 20 (stop_recording 12
      { is_recording := true, start_time := some 10,
        output_path := none, recording_data := [1 / 2] }).1).2.1 =
      Except.error "Not currently recording" :=
  stop_recording_no_output_path 12 20 _ rfl rfl

/-- A `filterMap` whose function succeeds on every element keeps the
length. -/
theorem length_filterMap_of_isSome {α β : Type} (f : α → Option β) :
    ∀ l : List α, (∀ a ∈ l, (f a).isSome) → (l.filterMap f).length = l.length := by
  intro l
  induction l with
  | nil => intro _; rfl
  | cons x xs ih =>
    intro hall
    have hx := hall x (List.mem_cons_self x xs)
    obtain ⟨b, hb⟩ := Option.isSome_iff_exists.mp hx
    rw [List.filterMap_cons, hb]
    simp only [List.length_cons]
    rw [ih (fun a ha => hall a (List.mem_cons_of_mem x ha))]

/-- C6: for positive rates the resampler's output length is
`⌊len · out_rate / in_rate⌋` (every loop index passes the `src_index`
guard), and equal rates short-circuit to the identity. -/
theorem resample_audio_spec (input : List ℚ) (input_rate output_rate : ℕ)
    (hin : 0 < input_rate) (hout : 0 < output_rate) :
    (resample_audio input input_rate output_rate).length =
      input.length * output_rate / input_rate ∧
    (input_rate = output_rate → resample_audio input input_rate output_rate = input) := by
  constructor
  · by_cases heq : input_rate = output_rate
    · rw [resample_audio, if_pos heq, heq, Nat.mul_div_cancel _ (heq ▸ hin)]
    · rw [resample_audio, if_neg heq]
      have hratio : ((input.length : ℚ)) / ((input_rate : ℚ) / (output_rate : ℚ)) =
          ((input.length * output_rate : ℕ) : ℚ) / ((input_rate : ℕ) : ℚ) := by
        push_cast
        rw [div_div_eq_mul_div]
      have houtlen : ⌊(input.length : ℚ) / ((input_rate : ℚ) / (output_rate : ℚ))⌋₊ =
          input.length * output_rate / input_rate := by
        rw [hratio, Nat.floor_div_nat, Nat.floor_natCast]
      rw [length_filterMap_of_isSome]
      · rw [List.length_range]
        exact houtlen
      · intro i hi
        rw [List.mem_range, houtlen] at hi
        have hsrc : ⌊(i : ℚ) * ((input_rate : ℚ) / (output_rate : ℚ))⌋₊ =
            i * input_rate / output_rate := by
          have heqq : (i : ℚ) * ((input_rate : ℚ) / (output_rate : ℚ)) =
              ((i * input_rate : ℕ) : ℚ) / ((output_rate : ℕ) : ℚ) := by
            push_cast
            ring
          rw [heqq, Nat.floor_div_nat, Nat.floor_natCast]
        have hmul : (i + 1) * input_rate ≤ input.length * output_rate :=
          (Nat.le_div_iff_mul_le hin).mp hi
        have hlt : i * input_rate < input.length * output_rate := by
          have h1 : i * input_rate < (i + 1) * input_rate :=
            (Nat.mul_lt_mul_right hin).mpr (Nat.lt_succ_self i)
          omega
        have hguard : ⌊(i : ℚ) * ((input_rate : ℚ) / (output_rate : ℚ))⌋₊ < input.length := by
          rw [hsrc, Nat.div_lt_iff_lt_mul hout]
          omega
        dsimp only
        rw [dif_pos hguard]
        rfl
  · intro h
    rw [resample_audio, if_pos h]

/-- Concrete instance of C6: three samples downsampled 2:1 keep
`⌊3·1/2⌋ = 1` sample. -/
theorem resample_audio_spec_witness :
    (resample_audio [0, 0, 0] 2 1).length = List.length [(0 : ℚ), 0, 0] * 1 / 2 ∧
    (2 = 1 → resample_audio [0, 0, 0] 2 1 = [0, 0, 0]) :=
  resample_audio_spec [0, 0, 0] 2 1 (by decide) (by decide)

/-- Counterexample to C4 as stated: at `s = -1/2` the code's
truncation-toward-zero cast writes `-16383`, while `⌊s · INT16_MAX⌋` is
`-16384`. -/
theorem quantizeSample_floor_cex :
    quantizeSample (-(1 : ℚ) / 2) = -16383 ∧ ⌊(-(1 : ℚ) / 2) * 32767⌋ = -16384 := by
  have hceil : ⌈(-(1 : ℚ) / 2) * 32767⌉ = -16383 := by
    rw [Int.ceil_eq_iff]
    constructor <;> norm_num
  have hfloor : ⌊(-(1 : ℚ) / 2) * 32767⌋ = -16384 := by
    rw [Int.floor_eq_iff]
    constructor <;> norm_num
  refine ⟨?_, hfloor⟩
  rw [quantizeSample, i16SatCast, truncQ, if_neg (by norm_num), hceil]
  decide

/-- C4 (amended): when a recording stops with an output path set, the WAV
written is 1-channel, 16000 Hz, 16-bit, with exactly one sample per
master-buffer sample, each being `s · 32767` rounded toward zero
(floor for non-negative, ceiling for negative) and saturated into
`[-32768, 32767]`. -/
theorem stop_recording_wav_format (now : ℤ) (st : AudioStateM) (path : String)
    (h1 : st.is_recording = true) (h2 : st.output_path = some path) :
    (stop_recording now st).2.2 =
      some { spec := { channels := 1, sample_rate := 16000, bits_per_sample := 16 }
             samples := st.recording_data.map (fun s =>
               max (-32768) (min 32767
                 (if 0 ≤ s * 32767 then ⌊s * 32767⌋ else ⌈s * 32767⌉))) } ∧
    ((stop_recording now st).2.2.map (fun w => w.samples.length)) =
      some st.recording_data.length := by
  have h3 : (stop_recording now st).2.2 =
      some { spec := { channels := 1, sample_rate := 16000, bits_per_sample := 16 }
             samples := st.recording_data.map quantizeSample } := by
    rw [stop_recording, h1]
    simp [h2]
  have hq : quantizeSample = fun s : ℚ =>
      max (-32768) (min 32767 (if 0 ≤ s * 32767 then ⌊s * 32767⌋ else ⌈s * 32767⌉)) := by
    funext s
    rw [quantizeSample, i16SatCast, truncQ]
  constructor
  · rw [h3, hq]
  · rw [h3]
    simp only [Option.map_some', List.length_map]

/-- Concrete instance of C4 (amended). -/
theorem stop_recording_wav_format_witness :
    (stop_recording 3 { is_recording := true, start_time := some 0,
                        output_path := some "p", recording_data := [-(1 / 2), 2] }).2.2 =
      some { spec := { channels := 1, sample_rate := 16000, bits_per_sample := 16 }
             samples := List.map (fun s : ℚ =>
               max (-32768) (min 32767
                 (if 0 ≤ s * 32767 then ⌊s * 32767⌋ else ⌈s * 32767⌉))) [-(1 / 2 : ℚ), 2] } ∧
    ((stop_recording 3 { is_recording := true, start_time := some 0,
                         output_path := some "p", recording_data := [-(1 / 2), 2] }).2.2.map
        (fun w => w.samples.length)) =
      some (List.length [-(1 / 2 : ℚ), 2]) :=
  stop_recording_wav_format 3 _ "p" rfl rfl

/-- C1 (bug evidence): on the connection as opened by the code (SQLite
default, `foreign_keys` off, never changed by any PRAGMA), deleting a
meeting leaves its segments in place — `get_meeting_segments` still returns
them — although the meeting row itself is gone; the declared
`ON DELETE CASCADE` would only fire with the pragma on (third conjunct). -/
theorem delete_meeting_orphan_segments :
    (((Database.new.create_meeting "m1" "2025-08-04T23:35:59+07:00"
          "Meeting 2025-08-04 23:35:59" none).1.add_meeting_segment
        { id := "s1", meeting_id := "m1", start_time := 0, end_time := 1,
          text := "hello", confidence := none }).delete_meeting "m1").get_meeting_segments
        "m1" =
      [{ id := "s1", meeting_id := "m1", start_time := 0, end_time := 1,
         text := "hello", confidence := none }] ∧
    (((Database.new.create_meeting "m1" "2025-08-04T23:35:59+07:00"
          "Meeting 2025-08-04 23:35:59" none).1.add_meeting_segment
        { id := "s1", meeting_id := "m1", start_time := 0, end_time := 1,
          text := "hello", confidence := none }).delete_meeting "m1").meetings = [] ∧
    (({ (Database.new.create_meeting "m1" "2025-08-04T23:35:59+07:00"
          "Meeting 2025-08-04 23:35:59" none).1.add_meeting_segment
        { id := "s1", meeting_id := "m1", start_time := 0, end_time := 1,
          text := "hello", confidence := none } with
        foreign_keys_on := true }).delete_meeting "m1").get_meeting_segments "m1" = [] :=
  ⟨rfl, rfl, rfl⟩

/-- A filename passing the candidate filter starts with `recording_` and is
in particular non-empty. -/
theorem candidate_ne_nil {date f : List Char}
    (h : isCandidateFile date f = true) : f ≠ [] := by
  intro hnil
  subst hnil
  rw [isCandidateFile] at h
  rw [show ("recording_".toList.isPrefixOf ([] : List Char)) = false from rfl] at h
  simp at h

/-- One loop step preserves the best-match invariant. -/
theorem bestStep_inv (m : RMeeting) (seen : List (List Char))
    (st : Option (List Char) × ℤ) (f : List Char)
    (h : BestInv m seen st) : BestInv m (seen ++ [f]) (bestStep m st f) := by
  obtain ⟨hnone, hsome⟩ := h
  have hmem : ∀ g : List Char, g ∈ seen ++ [f] → g ∈ seen ∨ g = f := by
    intro g hg
    rcases List.mem_append.mp hg with h1 | h1
    · exact Or.inl h1
    · exact Or.inr (List.mem_singleton.mp h1)
  rw [bestStep]
  by_cases hc : isCandidateFile m.local_date f = true
  · rw [if_pos hc]
    cases hp : parseFileTime f with
    | none =>
      refine ⟨?_, ?_⟩
      · intro h1
        obtain ⟨h2, h3⟩ := hnone h1
        refine ⟨h2, ?_⟩
        intro g u hg hgc hgp
        rcases hmem g hg with h4 | h4
        · exact h3 g u h4 hgc hgp
        · rw [h4, hp] at hgp
          exact absurd hgp (by simp)
      · intro f0 h1
        obtain ⟨h2, h3, t, h4, h5, h6⟩ := hsome f0 h1
        refine ⟨List.mem_append.mpr (Or.inl h2), h3, t, h4, h5, ?_⟩
        intro g u hg hgc hgp
        rcases hmem g hg with h7 | h7
        · exact h6 g u h7 hgc hgp
        · rw [h7, hp] at hgp
          exact absurd hgp (by simp)
    | some t =>
      show BestInv m (seen ++ [f]) (if timeDiff m t < st.2 then (some f, timeDiff m t) else st)
      by_cases hd : timeDiff m t < st.2
      · rw [if_pos hd]
        refine ⟨by intro h1; exact absurd h1 (by simp), ?_⟩
        intro f0 h1
        have hf0 : f0 = f := by
          simpa using h1.symm
        subst hf0
        refine ⟨List.mem_append.mpr (Or.inr (List.mem_singleton.mpr rfl)), hc, t, hp,
          rfl, ?_⟩
        intro g u hg hgc hgp
        rcases hmem g hg with h7 | h7
        · cases hst : st.1 with
          | none =>
            obtain ⟨h2, h3⟩ := hnone hst
            have := h3 g u h7 hgc hgp
            have hlt : timeDiff m t < i64Max := h2 ▸ hd
            omega
          | some f1 =>
            obtain ⟨-, -, t1, -, -, h6⟩ := hsome f1 hst
            have := h6 g u h7 hgc hgp
            omega
        · rw [h7, hp] at hgp
          have hut : u = t := by
            simpa using hgp.symm
          rw [hut]
      · rw [if_neg hd]
        refine ⟨?_, ?_⟩
        · intro h1
          obtain ⟨h2, h3⟩ := hnone h1
          refine ⟨h2, ?_⟩
          intro g u hg hgc hgp
          rcases hmem g hg with h4 | h4
          · exact h3 g u h4 hgc hgp
          · rw [h4, hp] at hgp
            have hut : u = t := by
              simpa using hgp.symm
            rw [hut, ← h2]
            omega
        · intro f0 h1
          obtain ⟨h2, h3, t0, h4, h5, h6⟩ := hsome f0 h1
          refine ⟨List.mem_append.mpr (Or.inl h2), h3, t0, h4, h5, ?_⟩
          intro g u hg hgc hgp
          rcases hmem g hg with h7 | h7
          · exact h6 g u h7 hgc hgp
          · rw [h7, hp] at hgp
            have hut : u = t := by
              simpa using hgp.symm
            rw [hut]
            omega
  · rw [if_neg hc]
    refine ⟨?_, ?_⟩
    · intro h1
      obtain ⟨h2, h3⟩ := hnone h1
      refine ⟨h2, ?_⟩
      intro g u hg hgc hgp
      rcases hmem g hg with h4 | h4
      · exact h3 g u h4 hgc hgp
      · rw [h4] at hgc
        exact absurd hgc hc
    · intro f0 h1
      obtain ⟨h2, h3, t0, h4, h5, h6⟩ := hsome f0 h1
      refine ⟨List.mem_append.mpr (Or.inl h2), h3, t0, h4, h5, ?_⟩
      intro g u hg hgc hgp
      rcases hmem g hg with h7 | h7
      · exact h6 g u h7 hgc hgp
      · rw [h7] at hgc
        exact absurd hgc hc

/-- The invariant is preserved along the whole fold. -/
theorem bestMatch_fold_inv (m : RMeeting) :
    ∀ (files : List (List Char)) (st : Option (List Char) × ℤ) (seen : List (List Char)),
      BestInv m seen st → BestInv m (seen ++ files) (files.foldl (bestStep m) st) := by
  intro files
  induction files with
  | nil =>
    intro st seen h
    simpa using h
  | cons f fs ih =>
    intro st seen h
    rw [List.foldl_cons]
    have h3 := ih (bestStep m st f) (seen ++ [f]) (bestStep_inv m seen st f h)
    simpa [List.append_assoc] using h3

/-- The completed scan satisfies the invariant over all files. -/
theorem bestMatch_spec (m : RMeeting) (files : List (List Char)) :
    BestInv m files (bestMatch m files) := by
  have h0 : BestInv m [] ((none, i64Max) : Option (List Char) × ℤ) := by
    refine ⟨fun _ => ⟨rfl, ?_⟩, fun f hf => absurd hf (by simp)⟩
    intro g u hg
    exact absurd hg (by simp)
  have h1 := bestMatch_fold_inv m files (none, i64Max) [] h0
  rw [bestMatch]
  simpa using h1

/-- `processRMeeting` either leaves the meeting unchanged without an update,
or stores the full path of some candidate file and reports an update. -/
theorem processRMeeting_cases (dir : List Char) (files : List (List Char)) (m : RMeeting) :
    processRMeeting dir files m = (m, false) ∨
    ∃ f d, bestMatch m files = (some f, d) ∧ d < 1800 ∧
      isCandidateFile m.local_date f = true ∧
      processRMeeting dir files m =
        ({ m with audio_file_path := some (dir ++ f) }, true) := by
  rw [processRMeeting]
  by_cases hskip : (match m.audio_file_path with
      | some p => !p.isEmpty
      | none => false) = true
  · rw [if_pos hskip]
    exact Or.inl rfl
  · rw [if_neg hskip]
    rcases hbm : bestMatch m files with ⟨o, d⟩
    cases o with
    | none => exact Or.inl rfl
    | some f =>
      have hc : isCandidateFile m.local_date f = true :=
        ((bestMatch_spec m files).2 f (by rw [hbm])).2.1
      dsimp only
      by_cases hd : d < 1800
      · rw [if_pos hd]
        exact Or.inr ⟨f, d, rfl, hd, hc, rfl⟩
      · rw [if_neg hd]
        exact Or.inl rfl

/-- Processing a meeting twice never updates on the second pass: an updated
meeting carries a non-empty path and is skipped, an untouched meeting is
processed identically. -/
theorem processRMeeting_idem (dir : List Char) (files : List (List Char)) (m : RMeeting) :
    processRMeeting dir files (processRMeeting dir files m).1 =
      ((processRMeeting dir files m).1, false) := by
  rcases processRMeeting_cases dir files m with h | ⟨f, d, hbm, hd, hc, h⟩
  · rw [h]
    simpa using h
  · rw [h]
    have hne : f ≠ [] := candidate_ne_nil hc
    have hemp : (dir ++ f).isEmpty = false := by
      cases hdf : dir ++ f with
      | nil => exact absurd (List.append_eq_nil.mp hdf).2 hne
      | cons _ _ => rfl
    rw [processRMeeting]
    rw [if_pos]
    show (!(dir ++ f).isEmpty) = true
    rw [hemp]
    rfl

/-- C7 (amended): `update_audio_file_paths` is idempotent — an immediate
second run leaves every meeting unchanged and updates none — and every
update stores the path of a file of the scanned directory that starts with
`recording_`, contains the meeting's local `%Y%m%d` date string, carries a
parseable six-character time field, lies strictly within 1800 s of the
meeting's UTC time of day, and is closest in seconds among all such files. -/
theorem update_audio_file_paths_spec :
    (∀ (dir : List Char) (files : List (List Char)) (meetings : List RMeeting),
      update_audio_file_paths dir files (update_audio_file_paths dir files meetings).1 =
        ((update_audio_file_paths dir files meetings).1, 0)) ∧
    (∀ (dir : List Char) (files : List (List Char)) (m : RMeeting),
      (processRMeeting dir files m).2 = true →
      ∃ f t, f ∈ files ∧ isCandidateFile m.local_date f = true ∧
        parseFileTime f = some t ∧
        (processRMeeting dir files m).1.audio_file_path = some (dir ++ f) ∧
        timeDiff m t < 1800 ∧
        ∀ g u, g ∈ files → isCandidateFile m.local_date g = true →
          parseFileTime g = some u → timeDiff m t ≤ timeDiff m u) := by
  constructor
  · intro dir files meetings
    rw [update_audio_file_paths, update_audio_file_paths]
    have hfst : ∀ m0 : RMeeting,
        (processRMeeting dir files (processRMeeting dir files m0).1).1 =
          (processRMeeting dir files m0).1 :=
      fun m0 => by rw [processRMeeting_idem]
    have hsnd : ∀ m0 : RMeeting,
        (processRMeeting dir files (processRMeeting dir files m0).1).2 = false :=
      fun m0 => by rw [processRMeeting_idem]
    refine Prod.ext ?_ ?_
    · show (List.map _ (List.map _ meetings)) = List.map _ meetings
      rw [List.map_map]
      refine List.map_congr_left ?_
      intro m0 _
      exact hfst m0
    · show (List.filter _ (List.map _ meetings)).length = 0
      rw [List.length_eq_zero]
      rw [List.filter_eq_nil_iff]
      intro m1 hm1
      obtain ⟨m0, -, rfl⟩ := List.mem_map.mp hm1
      simp only [hsnd m0, Bool.false_eq_true, not_false_eq_true]
  · intro dir files m h
    rcases processRMeeting_cases dir files m with hcase | ⟨f, d, hbm, hd, hc, hcase⟩
    · rw [hcase] at h
      exact absurd h (by simp)
    · obtain ⟨hmem, -, t, hpt, hdt, hmin⟩ := (bestMatch_spec m files).2 f (by rw [hbm])
      have hdt2 : d = timeDiff m t := by
        rw [hbm] at hdt
        simpa using hdt
      refine ⟨f, t, hmem, hc, hpt, ?_, ?_, ?_⟩
      · rw [hcase]
      · rw [← hdt2]
        exact hd
      · intro g u hg hgc hgp
        have h3 := hmin g u hg hgc hgp
        rw [hbm] at h3
        rw [← hdt2]
        simpa using h3

/-- Concrete instance of C7 (amended), the spec's own reconciliation
scenario: the file `recording_20250804_233559.wav` is assigned to a meeting
of local date `20250804` whose UTC time of day is `23:36:00` (1 s away). -/
theorem update_audio_file_paths_spec_witness :
    ∃ f t, f ∈ ["recording_20250804_233559.wav".toList] ∧
      isCandidateFile ("20250804".toList) f = true ∧
      parseFileTime f = some t ∧
      (processRMeeting ("/rec/".toList) ["recording_20250804_233559.wav".toList]
          { id := "m1", audio_file_path := none, local_date := "20250804".toList,
            utc_hour := 23, utc_minute := 36, utc_second := 0 }).1.audio_file_path =
        some ("/rec/".toList ++ f) ∧
      timeDiff { id := "m1", audio_file_path := none, local_date := "20250804".toList,
                 utc_hour := 23, utc_minute := 36, utc_second := 0 } t < 1800 ∧
      ∀ g u, g ∈ ["recording_20250804_233559.wav".toList] →
        isCandidateFile ("20250804".toList) g = true → parseFileTime g = some u →
        timeDiff { id := "m1", audio_file_path := none, local_date := "20250804".toList,
                   utc_hour := 23, utc_minute := 36, utc_second := 0 } t ≤
          timeDiff { id := "m1", audio_file_path := none, local_date := "20250804".toList,
                     utc_hour := 23, utc_minute := 36, utc_second := 0 } u :=
  update_audio_file_paths_spec.2 ("/rec/".toList)
    ["recording_20250804_233559.wav".toList]
    { id := "m1", audio_file_path := none, local_date := "20250804".toList,
      utc_hour := 23, utc_minute := 36, utc_second := 0 } (by decide)

/-- Counterexample to C7 as stated: the code's filter is
`filename.contains(meeting_date)`, not "encoded date equals meeting date":
the file `recording_99999999_120000_20250803.wav` (encoded date field
`99999999`, encoded time `120000`) is matched and assigned to a meeting of
local date `20250803` at UTC 12:00:00, though its underscore-delimited date
field differs from the meeting's date. -/
theorem update_audio_file_paths_cex :
    (processRMeeting ("/rec/".toList)
        ["recording_99999999_120000_20250803.wav".toList]
        { id := "m1", audio_file_path := none, local_date := "20250803".toList,
          utc_hour := 12, utc_minute := 0, utc_second := 0 }).2 = true ∧
    (processRMeeting ("/rec/".toList)
        ["recording_99999999_120000_20250803.wav".toList]
        { id := "m1", audio_file_path := none, local_date := "20250803".toList,
          utc_hour := 12, utc_minute := 0, utc_second := 0 }).1.audio_file_path =
      some ("/rec/".toList ++ "recording_99999999_120000_20250803.wav".toList) ∧
    (splitUnderscore ("recording_99999999_120000_20250803.wav".toList)).getD 1 [] ≠
      "20250803".toList := by
  refine ⟨by decide, by decide, by decide⟩

end MeetingNotes
